import Mathlib

/-!
Verification of the sort-state engine, row-ordering engine and pagination of
the `lit-data-table` component (`src/utility.ts`, `src/data-table.ts`).

The embedding is shallow:
* rendered cell values are modelled by `JSValue` (the primitive values the
  default comparator inspects: `typeof v === 'number'` dispatch and string
  coercion);
* the `Map<ColumnDefinition, SortState>` of `DataTable.sortStates` is
  modelled as an insertion-ordered association list `Store`, keyed by a
  `Nat` column handle (column identity), with `mapGet`/`mapSet`/`mapDelete`
  mirroring the JS `Map` operations (`set` on an existing key updates the
  entry in place, otherwise appends);
* a column registry `cols : Nat → ColumnDefinition T` maps each handle to
  its definition (`render` output and the `sortable` variant);
* `Array.prototype.sort(cmp)` (stable in ES2019+) is modelled by a stable
  insertion sort on lists with `le a b := cmp a b ≤ 0`;
* `Array.prototype.slice(start, end)` is modelled with the ECMAScript
  clamping rules, including the negative-offset (`length + index`) case.
-/

/-- A JS primitive value, as produced by a column's `render` function and
consumed by the default value comparator in `DataTable.sortData`. -/
inductive JSValue where
  | null
  | undef
  | bool (b : Bool)
  | num (n : Int)
  | str (s : String)
  deriving DecidableEq

/-- `isDefined` from `src/utility.ts`: `typeof value !== 'undefined' && value !== null`. -/
def isDefined : JSValue → Bool
  | .null => false
  | .undef => false
  | _ => true

/-- JS `String(value)` coercion for the primitive values of `JSValue`. -/
def jsToString : JSValue → String
  | .null => "null"
  | .undef => "undefined"
  | .bool true => "true"
  | .bool false => "false"
  | .num n => toString n
  | .str s => s

/-- `baseComparator` from `src/utility.ts`:
applies `selector` to both operands; returns 0 when the selected values are
identical or both absent; delegates to `matcher` when both are defined;
otherwise returns -1 when `a` is the defined one and 1 when `b` is. -/
def baseComparator {S : Type} (selector : S → JSValue)
    (matcher : JSValue → JSValue → Int) (sourceA sourceB : S) : Int :=
  let a := selector sourceA
  let b := selector sourceB
  if a = b ∨ (isDefined a = false ∧ isDefined b = false) then 0
  else if isDefined a = true ∧ isDefined b = true then matcher a b
  else if isDefined a then -1 else 1

/-- The matcher built inline in `DataTable.sortData`: numeric subtraction when
both values are numbers, otherwise string coercion compared with `<`
(returning 0 on equal strings, else -1/1). -/
def defaultMatcher (valueA valueB : JSValue) : Int :=
  match valueA, valueB with
  | .num x, .num y => x - y
  | a, b =>
    let stringA := jsToString a
    let stringB := jsToString b
    if stringA = stringB then 0
    else if stringA < stringB then -1 else 1

/-- The `sortable` field of a `ColumnDefinition` (`src/types.ts`):
absent, boolean, or a `SortConfig` object carrying a custom comparator. -/
inductive Sortable (T : Type) where
  | undef
  | bool (b : Bool)
  | custom (comparator : T → T → Int)

/-- Is `sortable` a `SortConfig` object (`typeof column.sortable === 'object'`)? -/
def Sortable.isCustom {T : Type} : Sortable T → Bool
  | .custom _ => true
  | _ => false

/-- A column definition, reduced to the fields the sort engine reads: the
`render` function (modelled on its row argument only; the render-state
context passed by the source carries a sentinel `rowIndex: -1` during
sorting and does not influence the claims) and the `sortable` variant. -/
structure ColumnDefinition (T : Type) where
  render : T → JSValue
  sortable : Sortable T

/-- `SortState` from `src/types.ts`. The source types `direction` as
`-1 | 1`; we embed it as `Int` and carry the range as a hypothesis where a
claim depends on it. -/
structure SortState where
  direction : Int
  priority : Nat
  deriving DecidableEq

/-- The `sortStates` map, as an insertion-ordered association list. -/
abbrev Store := List (Nat × SortState)

/-- `Map.get`. -/
def mapGet (k : Nat) : Store → Option SortState
  | [] => none
  | e :: es => if e.1 = k then some e.2 else mapGet k es

/-- `Map.set`: update in place when the key is present, append otherwise. -/
def mapSet (store : Store) (k : Nat) (v : SortState) : Store :=
  match store with
  | [] => [(k, v)]
  | e :: es => if e.1 = k then (k, v) :: es else e :: mapSet es k v

/-- `Map.delete`. -/
def mapDelete (k : Nat) : Store → Store
  | [] => []
  | e :: es => if e.1 = k then es else e :: mapDelete k es

/-- Keys of the store, in insertion order. -/
def keysOf (store : Store) : List Nat := store.map (fun e => e.1)

/-- Priorities of the store entries, in insertion order. -/
def prioritiesOf (store : Store) : List Nat := store.map (fun e => e.2.priority)

/-- Stable insertion of one element: place `x` before the first element it
is `le`-related to. -/
def insertOne {α : Type} (le : α → α → Bool) (x : α) : List α → List α
  | [] => [x]
  | y :: ys => if le x y then x :: y :: ys else y :: insertOne le x ys

/-- Stable insertion sort, the model of ES2019 `Array.prototype.sort`. -/
def insertionSort {α : Type} (le : α → α → Bool) : List α → List α
  | [] => []
  | x :: xs => insertOne le x (insertionSort le xs)

/-- The sort key used on `[...sortStates.entries()].sort((a, b) => a[1].priority - b[1].priority)`. -/
def lePriority (a b : Nat × SortState) : Bool := a.2.priority ≤ b.2.priority

/-- The priority renumbering performed by the clear branch of
`DataTable.setColumnSort`: sort the entries ascending by priority and
re-`set` each with `priority = index + 1`. -/
def renumber (store : Store) : Store :=
  ((insertionSort lePriority store).enum).foldl
    (fun st p => mapSet st p.2.1 { p.2.2 with priority := p.1 + 1 }) store

/-- The priority given to a newly inserted entry in `DataTable.setColumnSort`:
`[...values()].reduce((result, { priority }) => Math.max(result, priority + 1), 1)`. -/
def nextPriority (store : Store) : Nat :=
  store.foldl (fun result e => max result (e.2.priority + 1)) 1

/-- The per-column comparison performed inside the row comparator of
`DataTable.sortData`: the custom comparator when `sortable` is an object,
otherwise `baseComparator` over the rendered cell values with the inline
number/string matcher. -/
def columnResult {T : Type} (cols : Nat → ColumnDefinition T) (k : Nat)
    (rowA rowB : T) : Int :=
  match (cols k).sortable with
  | .custom comparator => comparator rowA rowB
  | _ => baseComparator (fun row => (cols k).render row) defaultMatcher rowA rowB

/-- The composed row comparator of `DataTable.sortData`, consulting the
priority-ordered entries: on the first non-zero per-column result, return
`result * direction`; if all entries tie, return 0. -/
def rowComparator {T : Type} (cols : Nat → ColumnDefinition T) :
    List (Nat × SortState) → T → T → Int
  | [], _, _ => 0
  | (k, st) :: rest, rowA, rowB =>
    let result := columnResult cols k rowA rowB
    if result ≠ 0 then result * st.direction else rowComparator cols rest rowA rowB

/-- `DataTable.sortData`: sort the entries ascending by priority, then sort
the data in place with the composed row comparator. -/
def sortData {T : Type} (cols : Nat → ColumnDefinition T) (store : Store)
    (data : List T) : List T :=
  let priorityOrder := insertionSort lePriority store
  insertionSort (fun rowA rowB => rowComparator cols priorityOrder rowA rowB ≤ 0) data

/-- The observable state of a `DataTable` instance relevant to the claims. -/
structure TableState (T : Type) where
  store : Store
  data : List T
  multiSort : Bool

/-- The store mutation and dirty flag of `DataTable.setColumnSort`:
* entry present, direction non-zero and different: update in place, dirty;
* entry present, direction zero: delete, renumber, dirty iff entries remain;
* entry absent, direction non-zero: insert at `nextPriority`, dirty;
* otherwise: no-op. -/
def setColumnSortCore (store : Store) (k : Nat) (direction : Int) : Store × Bool :=
  match mapGet k store with
  | some sortState =>
    if direction ≠ 0 ∧ sortState.direction ≠ direction then
      (mapSet store k { sortState with direction := direction }, true)
    else if direction = 0 then
      let renumbered := renumber (mapDelete k store)
      (renumbered, decide (0 < renumbered.length))
    else
      (store, false)
  | none =>
    if direction ≠ 0 then
      (mapSet store k { direction := direction, priority := nextPriority store }, true)
    else
      (store, false)

/-- `DataTable.setColumnSort`: apply the store mutation, then re-sort the
data when the mutation marked the store dirty. -/
def setColumnSort {T : Type} (cols : Nat → ColumnDefinition T) (s : TableState T)
    (k : Nat) (direction : Int) : TableState T :=
  let core := setColumnSortCore s.store k direction
  { s with store := core.1
           data := if core.2 then sortData cols core.1 s.data else s.data }

/-- `DataTable.clearTableSort`: empty the store (the data is untouched). -/
def clearTableSort {T : Type} (s : TableState T) : TableState T :=
  { s with store := [] }

/-- `DataTable.clearColumnSort`. -/
def clearColumnSort {T : Type} (cols : Nat → ColumnDefinition T) (s : TableState T)
    (k : Nat) : TableState T :=
  setColumnSort cols s k 0

/-- `DataTable.toggleColumnSort`: read the current entry, clear the whole
table first when multi-sort is off, then set `(direction ?? -1) * -1`. -/
def toggleColumnSort {T : Type} (cols : Nat → ColumnDefinition T) (s : TableState T)
    (k : Nat) : TableState T :=
  let sortState := mapGet k s.store
  let cleared := if s.multiSort then s else clearTableSort s
  setColumnSort cols cleared k (((sortState.map (fun st => st.direction)).getD (-1)) * -1)

/-- The direction recorded for column `k`, when an entry is present. -/
def dirOf {T : Type} (s : TableState T) (k : Nat) : Option Int :=
  (mapGet k s.store).map (fun st => st.direction)

/-- ECMAScript `Array.prototype.slice(start, end)`: negative offsets count
from the end, both offsets are clamped to `[0, length]`, and the count is
clamped to be non-negative. -/
def jsSlice {α : Type} (l : List α) (start stop : Int) : List α :=
  let len : Int := l.length
  let s := if start < 0 then max (len + start) 0 else min start len
  let e := if stop < 0 then max (len + stop) 0 else min stop len
  (l.drop s.toNat).take (e - s).toNat

/-- `DataTable.pageCount`: `pageSize > 0 ? Math.ceil(data.length / pageSize) : 0`. -/
def pageCount {α : Type} (data : List α) (pageSize : Int) : Int :=
  if 0 < pageSize then ⌈(data.length : ℚ) / (pageSize : ℚ)⌉ else 0

/-- `DataTable.getDisplayData`: when `pageSize` is truthy (non-zero), slice
`[pageIndex * pageSize, pageIndex * pageSize + pageSize)`; otherwise return
the full collection. -/
def getDisplayData {α : Type} (data : List α) (pageSize pageIndex : Int) : List α :=
  if pageSize ≠ 0 then
    jsSlice data (pageIndex * pageSize) (pageIndex * pageSize + pageSize)
  else data

/-- Modelled from the spec (§4.3, claim C3 reference): the precedence chain,
"the active entries sorted ascending by priority", as `(column, direction)`
pairs. -/
def refChain (store : Store) : List (Nat × Int) :=
  (insertionSort lePriority store).map (fun e => (e.1, e.2.direction))

/-- Modelled from the spec (§4.3, claim C3 reference): iterate the precedence
chain, multiply each per-column result by the direction, return the first
non-zero product, and 0 when every entry ties. -/
def refRowComparator {T : Type} (cols : Nat → ColumnDefinition T) :
    List (Nat × Int) → T → T → Int
  | [], _, _ => 0
  | (k, dir) :: rest, rowA, rowB =>
    let result := columnResult cols k rowA rowB * dir
    if result ≠ 0 then result else refRowComparator cols rest rowA rowB

/-- The states reachable from an empty store by the four public sort
operations. -/
inductive Reachable {T : Type} (cols : Nat → ColumnDefinition T) : TableState T → Prop where
  | init (data : List T) (multiSort : Bool) :
      Reachable cols { store := [], data := data, multiSort := multiSort }
  | toggle {s : TableState T} (k : Nat) :
      Reachable cols s → Reachable cols (toggleColumnSort cols s k)
  | clearCol {s : TableState T} (k : Nat) :
      Reachable cols s → Reachable cols (clearColumnSort cols s k)
  | set {s : TableState T} (k : Nat) (d : Int) :
      Reachable cols s → Reachable cols (setColumnSort cols s k d)
  | clearAll {s : TableState T} :
      Reachable cols s → Reachable cols (clearTableSort s)

/-- The store invariant: keys are distinct (a `Map`) and the priorities are
exactly `1..N` for `N` entries. -/
def StoreInv (store : Store) : Prop :=
  (keysOf store).Nodup ∧ (prioritiesOf store).Perm (List.range' 1 store.length)

/-- Removal of the first occurrence of an entry (used only in proofs about
the renumbering pass). -/
def removeEntry (x : Nat × SortState) : Store → Store
  | [] => []
  | y :: ys => if y = x then ys else y :: removeEntry x ys

/-- The sequence of `Map.set` calls performed by the renumbering `forEach`. -/
def mapSetMany (store updates : Store) : Store :=
  updates.foldl (fun st u => mapSet st u.1 u.2) store

/-- The updates applied by `renumber`: the priority-sorted entries paired
with their new dense priorities `index + 1`. -/
def renumberUpdates (store : Store) : Store :=
  (insertionSort lePriority store).enum.map
    (fun p => (p.2.1, { p.2.2 with priority := p.1 + 1 }))

/-- `Math.max` over the existing priorities (0 when the store is empty). -/
def maxPriority (store : Store) : Nat := (prioritiesOf store).foldl max 0

/-- A concrete column registry for witnesses: every column renders the row
itself and is not sortable-flagged (default value comparator applies). -/
def colsId : Nat → ColumnDefinition JSValue :=
  fun _ => { render := fun v => v, sortable := Sortable.undef }

/-- A concrete single-sort table for witnesses. -/
def tableA : TableState JSValue :=
  { store := [], data := [JSValue.num 3, JSValue.num 1, JSValue.num 2], multiSort := false }

/-- A concrete multi-sort table for witnesses. -/
def tableM : TableState JSValue :=
  { store := [], data := [JSValue.num 2, JSValue.num 1], multiSort := true }

/-- A concrete one-entry store for witnesses. -/
def storeB : Store := [(0, { direction := 1, priority := 1 })]

theorem insertOne_perm {α : Type} (le : α → α → Bool) (x : α) (l : List α) :
    (insertOne le x l).Perm (x :: l) := by
  induction l with
  | nil => simp [insertOne]
  | cons y ys ih =>
    simp only [insertOne]
    split
    · exact List.Perm.refl _
    · exact ((ih.cons y).trans (List.Perm.swap x y ys))

theorem insertionSort_perm {α : Type} (le : α → α → Bool) (l : List α) :
    (insertionSort le l).Perm l := by
  induction l with
  | nil => simp [insertionSort]
  | cons x xs ih =>
    exact (insertOne_perm le x (insertionSort le xs)).trans (ih.cons x)

theorem insertionSort_length {α : Type} (le : α → α → Bool) (l : List α) :
    (insertionSort le l).length = l.length :=
  (insertionSort_perm le l).length_eq

theorem mem_insertionSort {α : Type} (le : α → α → Bool) {x : α} {l : List α} :
    x ∈ insertionSort le l ↔ x ∈ l :=
  (insertionSort_perm le l).mem_iff

theorem keysOf_nil : keysOf [] = [] := rfl

theorem keysOf_cons (e : Nat × SortState) (es : Store) :
    keysOf (e :: es) = e.1 :: keysOf es := rfl

theorem mapGet_eq_none_iff {k : Nat} {store : Store} :
    mapGet k store = none ↔ k ∉ keysOf store := by
  induction store with
  | nil => simp [mapGet, keysOf]
  | cons e es ih =>
    by_cases h : e.1 = k
    · simp [mapGet, keysOf, h]
    · simp [mapGet, keysOf, h, ih, Ne.symm h]

theorem mapGet_mapSet_self (store : Store) (k : Nat) (v : SortState) :
    mapGet k (mapSet store k v) = some v := by
  induction store with
  | nil => simp [mapSet, mapGet]
  | cons e es ih =>
    by_cases h : e.1 = k
    · simp [mapSet, mapGet, h]
    · simp [mapSet, mapGet, h, ih]

theorem mapSet_of_get_none {store : Store} {k : Nat} (v : SortState)
    (h : mapGet k store = none) : mapSet store k v = store ++ [(k, v)] := by
  induction store with
  | nil => simp [mapSet]
  | cons e es ih =>
    by_cases he : e.1 = k
    · simp [mapGet, he] at h
    · simp only [mapGet, he, if_false] at h
      simp [mapSet, he, ih h]

theorem mapSet_keys_of_mem {store : Store} {k : Nat} (hk : k ∈ keysOf store)
    (v : SortState) : keysOf (mapSet store k v) = keysOf store := by
  induction store with
  | nil => simp [keysOf] at hk
  | cons e es ih =>
    by_cases he : e.1 = k
    · simp [mapSet, he, keysOf]
    · have hk' : k ∈ keysOf es := by
        simp [keysOf, Ne.symm he] at hk
        simpa [keysOf] using hk
      simp [mapSet, he, keysOf_cons, ih hk']

theorem mapSet_eq_map {store : Store} {k : Nat} (hnd : (keysOf store).Nodup)
    (hk : k ∈ keysOf store) (v : SortState) :
    mapSet store k v = store.map (fun e => if e.1 = k then (k, v) else e) := by
  induction store with
  | nil => simp [keysOf] at hk
  | cons e es ih =>
    rw [keysOf_cons] at hnd hk
    by_cases he : e.1 = k
    · subst he
      have : ∀ x ∈ es, (fun e' : Nat × SortState => if e'.1 = e.1 then (e.1, v) else e') x = x := by
        intro x hx
        have : x.1 ≠ e.1 := by
          intro hcontra
          exact (List.nodup_cons.mp hnd).1 (hcontra ▸ List.mem_map_of_mem (fun y => y.1) hx)
        simp [this]
      simp [mapSet, List.map_congr_left this]
    · have hk' : k ∈ keysOf es := by
        rcases List.mem_cons.mp hk with h | h
        · exact absurd h.symm he
        · exact h
      simp [mapSet, he, ih (List.nodup_cons.mp hnd).2 hk']

theorem mapDelete_sublist (k : Nat) (store : Store) :
    (mapDelete k store).Sublist store := by
  induction store with
  | nil => simp [mapDelete]
  | cons e es ih =>
    by_cases he : e.1 = k
    · rw [mapDelete, if_pos he]
      exact List.sublist_cons_self e es
    · simpa [mapDelete, he] using ih.cons₂ e

theorem mapGet_of_mem_nodup {store : Store} {k : Nat} {v : SortState}
    (hnd : (keysOf store).Nodup) (hmem : (k, v) ∈ store) : mapGet k store = some v := by
  induction store with
  | nil => simp at hmem
  | cons e es ih =>
    rw [keysOf_cons] at hnd
    rcases List.mem_cons.mp hmem with h | h
    · simp [mapGet, ← h]
    · have hne : e.1 ≠ k := by
        intro hcontra
        exact (List.nodup_cons.mp hnd).1
          (hcontra ▸ List.mem_map_of_mem (fun y => y.1) h)
      simp [mapGet, hne, ih (List.nodup_cons.mp hnd).2 h]


theorem perm_cons_removeEntry {x : Nat × SortState} :
    ∀ {l : Store}, x ∈ l → l.Perm (x :: removeEntry x l) := by
  intro l
  induction l with
  | nil => intro h; simp at h
  | cons y ys ih =>
    intro hmem
    by_cases hxy : y = x
    · subst hxy
      simp [removeEntry]
    · have hx : x ∈ ys := by
        rcases List.mem_cons.mp hmem with h | h
        · exact absurd h.symm hxy
        · exact h
      have step : (y :: ys).Perm (y :: x :: removeEntry x ys) := (ih hx).cons y
      rw [removeEntry, if_neg hxy]
      exact step.trans (List.Perm.swap x y _)

theorem removeEntry_sublist (x : Nat × SortState) (l : Store) :
    (removeEntry x l).Sublist l := by
  induction l with
  | nil => simp [removeEntry]
  | cons y ys ih =>
    by_cases hxy : y = x
    · rw [removeEntry, if_pos hxy]
      exact List.sublist_cons_self y ys
    · rw [removeEntry, if_neg hxy]
      exact ih.cons₂ y

theorem mapGet_removeEntry_ne {x : Nat × SortState} {k : Nat} (hx : x.1 ≠ k)
    (l : Store) : mapGet k (removeEntry x l) = mapGet k l := by
  induction l with
  | nil => simp [removeEntry]
  | cons y ys ih =>
    by_cases hxy : y = x
    · subst hxy
      rw [removeEntry, if_pos rfl, mapGet, if_neg hx]
    · rw [removeEntry, if_neg hxy]
      by_cases hyk : y.1 = k
      · simp [mapGet, hyk]
      · simp [mapGet, hyk, ih]

theorem renumber_eq_mapSetMany (store : Store) :
    renumber store = mapSetMany store (renumberUpdates store) := by
  unfold renumber mapSetMany renumberUpdates
  rw [List.foldl_map]

theorem enum_map_comp_snd {α β : Type} (l : List α) (f : α → β) :
    l.enum.map (fun p => f p.2) = l.map f := by
  rw [show (fun p : Nat × α => f p.2) = f ∘ Prod.snd from rfl, ← List.map_map,
    List.enum_map_snd]

theorem range_map_add_one (n : Nat) :
    (List.range n).map (fun i => i + 1) = List.range' 1 n := by
  rw [List.range'_eq_map_range]
  exact List.map_congr_left (fun a _ => Nat.add_comm a 1)

theorem keysOf_sorted_perm (store : Store) :
    (keysOf (insertionSort lePriority store)).Perm (keysOf store) := by
  unfold keysOf
  exact (insertionSort_perm lePriority store).map (fun e : Nat × SortState => e.1)

theorem keysOf_renumberUpdates (store : Store) :
    keysOf (renumberUpdates store) = keysOf (insertionSort lePriority store) := by
  unfold renumberUpdates keysOf
  rw [List.map_map]
  exact enum_map_comp_snd (insertionSort lePriority store) (fun e : Nat × SortState => e.1)

theorem prioritiesOf_renumberUpdates (store : Store) :
    prioritiesOf (renumberUpdates store) = List.range' 1 store.length := by
  unfold renumberUpdates prioritiesOf
  rw [List.map_map]
  have h : ((fun e : Nat × SortState => e.2.priority) ∘
      fun p : Nat × (Nat × SortState) => ((p.2.1, { p.2.2 with priority := p.1 + 1 }) : Nat × SortState))
      = (fun i => i + 1) ∘ Prod.fst := rfl
  rw [h, ← List.map_map, List.enum_map_fst, range_map_add_one, insertionSort_length]

theorem mapSetMany_keys {updates : Store} :
    ∀ {store : Store}, (∀ u ∈ updates, u.1 ∈ keysOf store) →
    keysOf (mapSetMany store updates) = keysOf store := by
  induction updates with
  | nil => intro store _; rfl
  | cons u us ih =>
    intro store hsub
    have hk : keysOf (mapSet store u.1 u.2) = keysOf store :=
      mapSet_keys_of_mem (hsub u (List.mem_cons_self u us)) u.2
    have step : mapSetMany store (u :: us) = mapSetMany (mapSet store u.1 u.2) us := by
      simp [mapSetMany]
    rw [step, ih (fun u' hu' => hk ▸ hsub u' (List.mem_cons_of_mem u hu')), hk]

theorem renumber_keysOf (store : Store) : keysOf (renumber store) = keysOf store := by
  rw [renumber_eq_mapSetMany]
  refine mapSetMany_keys (fun u hu => ?_)
  have hmem : u.1 ∈ keysOf (renumberUpdates store) :=
    List.mem_map_of_mem (fun e : Nat × SortState => e.1) hu
  rw [keysOf_renumberUpdates] at hmem
  exact (keysOf_sorted_perm store).mem_iff.mp hmem

theorem renumber_length (store : Store) : (renumber store).length = store.length := by
  have h := congrArg List.length (renumber_keysOf store)
  simpa [keysOf] using h

theorem mapSetMany_eq_map {updates : Store} :
    ∀ {store : Store}, (keysOf store).Nodup → (keysOf updates).Nodup →
    (∀ u ∈ updates, u.1 ∈ keysOf store) →
    mapSetMany store updates
      = store.map (fun e => (e.1, (mapGet e.1 updates).getD e.2)) := by
  induction updates with
  | nil =>
    intro store _ _ _
    simp [mapSetMany, mapGet]
  | cons u us ih =>
    intro store hs hu hsub
    rw [keysOf_cons] at hu
    have hu1 : u.1 ∉ keysOf us := (List.nodup_cons.mp hu).1
    have hu2 : (keysOf us).Nodup := (List.nodup_cons.mp hu).2
    have hmem : u.1 ∈ keysOf store := hsub u (List.mem_cons_self u us)
    have hk : keysOf (mapSet store u.1 u.2) = keysOf store :=
      mapSet_keys_of_mem hmem u.2
    have step : mapSetMany store (u :: us) = mapSetMany (mapSet store u.1 u.2) us := by
      simp [mapSetMany]
    rw [step, ih (hk ▸ hs) hu2 (fun u' hu' => hk ▸ hsub u' (List.mem_cons_of_mem u hu')),
      mapSet_eq_map hs hmem u.2, List.map_map]
    refine List.map_congr_left (fun e _ => ?_)
    by_cases he : e.1 = u.1
    · have hnone : mapGet u.1 us = none := mapGet_eq_none_iff.mpr hu1
      simp [Function.comp, he, mapGet, hnone]
    · simp [Function.comp, he, mapGet, Ne.symm he]

theorem map_getD_perm {store : Store} :
    ∀ {updates : Store}, (keysOf store).Nodup → (keysOf updates).Nodup →
    (keysOf updates).Perm (keysOf store) →
    ((store.map (fun e => (e.1, (mapGet e.1 updates).getD e.2))).map (fun x => x.2)).Perm
      (updates.map (fun x => x.2)) := by
  induction store with
  | nil =>
    intro updates _ _ hperm
    have hkeys : keysOf updates = [] := hperm.eq_nil
    have hnil : updates = [] := by
      cases updates with
      | nil => rfl
      | cons a as => simp [keysOf] at hkeys
    simp [hnil]
  | cons e es ih =>
    intro updates hs hu hperm
    rw [keysOf_cons] at hs hperm
    have hs1 : e.1 ∉ keysOf es := (List.nodup_cons.mp hs).1
    have hs2 : (keysOf es).Nodup := (List.nodup_cons.mp hs).2
    have hmem : e.1 ∈ keysOf updates := hperm.mem_iff.mpr (List.mem_cons_self _ _)
    obtain ⟨u, humem, hufst⟩ := List.mem_map.mp hmem
    have hueq : u = (e.1, u.2) := by rw [← hufst]
    have hget : mapGet e.1 updates = some u.2 :=
      mapGet_of_mem_nodup (by simpa [keysOf] using hu) (hueq ▸ humem)
    have hperm_u : updates.Perm (u :: removeEntry u updates) :=
      perm_cons_removeEntry humem
    have herase_keys : (keysOf (removeEntry u updates)).Perm (keysOf es) := by
      have h1 : (keysOf updates).Perm (u.1 :: keysOf (removeEntry u updates)) := by
        have := hperm_u.map (fun x : Nat × SortState => x.1)
        simpa [keysOf] using this
      have h2 : (u.1 :: keysOf (removeEntry u updates)).Perm (e.1 :: keysOf es) :=
        h1.symm.trans hperm
      rw [hufst] at h2
      exact h2.cons_inv
    have herase_nodup : (keysOf (removeEntry u updates)).Nodup := by
      have hsub : (keysOf (removeEntry u updates)).Sublist (keysOf updates) := by
        unfold keysOf
        exact (removeEntry_sublist u updates).map (fun x : Nat × SortState => x.1)
      exact hu.sublist hsub
    have hmap_eq : es.map (fun e' => (e'.1, (mapGet e'.1 updates).getD e'.2))
        = es.map (fun e' => (e'.1, (mapGet e'.1 (removeEntry u updates)).getD e'.2)) := by
      refine List.map_congr_left (fun e' he' => ?_)
      have hne : u.1 ≠ e'.1 := by
        rw [hufst]
        intro hcontra
        exact hs1 (hcontra ▸ List.mem_map_of_mem (fun x : Nat × SortState => x.1) he')
      rw [mapGet_removeEntry_ne hne]
    have ihres := ih hs2 herase_nodup herase_keys
    have hl : ((e :: es).map (fun e' => (e'.1, (mapGet e'.1 updates).getD e'.2))).map
        (fun x => x.2)
        = u.2 :: (es.map
            (fun e' => (e'.1, (mapGet e'.1 (removeEntry u updates)).getD e'.2))).map
          (fun x => x.2) := by
      simp [hget, hmap_eq]
    rw [hl]
    have hstep := ihres.cons u.2
    have hr : (updates.map (fun x : Nat × SortState => x.2)).Perm
        (u.2 :: (removeEntry u updates).map (fun x => x.2)) := by
      have := hperm_u.map (fun x : Nat × SortState => x.2)
      simpa using this
    exact hstep.trans hr.symm

theorem renumber_priorities {store : Store} (hs : (keysOf store).Nodup) :
    (prioritiesOf (renumber store)).Perm (List.range' 1 store.length) := by
  have huperm : (keysOf (renumberUpdates store)).Perm (keysOf store) := by
    rw [keysOf_renumberUpdates]
    exact keysOf_sorted_perm store
  have hund : (keysOf (renumberUpdates store)).Nodup := huperm.nodup_iff.mpr hs
  have heq := @mapSetMany_eq_map (renumberUpdates store) store hs hund
    (fun u hu => huperm.mem_iff.mp (List.mem_map_of_mem (fun e : Nat × SortState => e.1) hu))
  have hperm := @map_getD_perm store (renumberUpdates store) hs hund huperm
  rw [← heq, ← renumber_eq_mapSetMany] at hperm
  have hfinal := hperm.map (fun st : SortState => st.priority)
  rw [List.map_map, List.map_map] at hfinal
  have h2 : (renumberUpdates store).map
      ((fun st : SortState => st.priority) ∘ (fun x : Nat × SortState => x.2))
      = List.range' 1 store.length := prioritiesOf_renumberUpdates store
  rw [h2] at hfinal
  exact hfinal

theorem foldl_max_perm {l₁ l₂ : List Nat} (h : l₁.Perm l₂) :
    ∀ b, l₁.foldl max b = l₂.foldl max b := by
  induction h with
  | nil => intro b; rfl
  | cons x _ ih => intro b; simp only [List.foldl_cons]; exact ih _
  | swap x y l =>
    intro b
    simp only [List.foldl_cons]
    rw [max_assoc, max_comm y x, ← max_assoc]
  | trans _ _ ih₁ ih₂ => intro b; rw [ih₁, ih₂]

theorem nextPriority_eq_foldl (store : Store) :
    nextPriority store = ((prioritiesOf store).map (fun p => p + 1)).foldl max 1 := by
  unfold nextPriority prioritiesOf
  rw [List.foldl_map, List.foldl_map]

theorem range'_map_add_one (s n : Nat) :
    (List.range' s n).map (fun i => i + 1) = List.range' (s + 1) n := by
  induction n generalizing s with
  | zero => rfl
  | succ n ih =>
    rw [List.range'_succ, List.range'_succ]
    simp [ih]

theorem foldl_max_range (n : Nat) : (List.range' 2 n).foldl max 1 = n + 1 := by
  induction n with
  | zero => rfl
  | succ n ih =>
    have hconcat : List.range' 2 (n + 1) = List.range' 2 n ++ [2 + n] := by
      simpa using @List.range'_concat 1 2 n
    rw [hconcat, List.foldl_append, ih]
    simp [List.foldl_cons]
    omega

theorem nextPriority_of_inv {store : Store}
    (h : (prioritiesOf store).Perm (List.range' 1 store.length)) :
    nextPriority store = store.length + 1 := by
  rw [nextPriority_eq_foldl]
  have hmap := h.map (fun p => p + 1)
  rw [range'_map_add_one] at hmap
  rw [foldl_max_perm hmap, foldl_max_range]

theorem foldl_max_map_add_one (l : List Nat) :
    ∀ b, (l.map (fun p => p + 1)).foldl max (b + 1) = l.foldl max b + 1 := by
  induction l with
  | nil => intro b; rfl
  | cons x xs ih =>
    intro b
    simp only [List.map_cons, List.foldl_cons]
    have h : (b + 1) ⊔ (x + 1) = (b ⊔ x) + 1 := Nat.succ_max_succ b x
    rw [h]
    exact ih (max b x)

theorem nextPriority_eq_maxPriority (store : Store) :
    nextPriority store = maxPriority store + 1 := by
  rw [nextPriority_eq_foldl, maxPriority]
  exact foldl_max_map_add_one (prioritiesOf store) 0

theorem storeInv_nil : StoreInv [] := by
  constructor
  · simp [keysOf]
  · simp [prioritiesOf]

theorem mem_keys_of_get_some {k : Nat} {store : Store} {st : SortState}
    (h : mapGet k store = some st) : k ∈ keysOf store := by
  by_contra hc
  rw [mapGet_eq_none_iff.mpr hc] at h
  cases h

theorem mapGet_isSome_iff {k : Nat} {store : Store} :
    (mapGet k store).isSome = true ↔ k ∈ keysOf store := by
  cases hget : mapGet k store with
  | none => simpa using mapGet_eq_none_iff.mp hget
  | some st => simpa using mem_keys_of_get_some hget

theorem entry_eq_of_get_some {k : Nat} {store : Store} {st : SortState}
    (hnd : (keysOf store).Nodup) (hget : mapGet k store = some st) :
    ∀ e ∈ store, e.1 = k → e.2 = st := by
  intro e hmem hk
  have h : mapGet k store = some e.2 := mapGet_of_mem_nodup hnd (by rwa [← hk, Prod.mk.eta])
  rw [hget] at h
  exact (Option.some_inj.mp h).symm

theorem setColumnSortCore_inv {store : Store} (h : StoreInv store) (k : Nat) (d : Int) :
    StoreInv (setColumnSortCore store k d).1 := by
  obtain ⟨hnd, hpri⟩ := h
  unfold setColumnSortCore
  cases hget : mapGet k store with
  | none =>
    by_cases hd : d ≠ 0
    · rw [if_pos hd]
      have hknot : k ∉ keysOf store := mapGet_eq_none_iff.mp hget
      simp only
      rw [mapSet_of_get_none _ hget]
      constructor
      · unfold keysOf
        rw [List.map_append]
        simp only [List.map_cons, List.map_nil]
        rw [List.nodup_append]
        refine ⟨hnd, List.nodup_singleton k, ?_⟩
        intro a ha hb
        have : a = k := by simpa using hb
        subst this
        exact hknot (by simpa [keysOf] using ha)
      · unfold prioritiesOf
        rw [List.map_append, List.length_append]
        have hnext : nextPriority store = store.length + 1 := nextPriority_of_inv hpri
        have hconcat : List.range' 1 (store.length + 1)
            = List.range' 1 store.length ++ [1 + store.length] := by
          simpa using @List.range'_concat 1 1 store.length
        simp only [List.map_cons, List.map_nil, hnext]
        rw [List.length_cons, List.length_nil, hconcat]
        have hstep := hpri.append_right [store.length + 1]
        have hcomm : 1 + store.length = store.length + 1 := Nat.add_comm 1 store.length
        rw [hcomm]
        exact hstep
    · rw [if_neg hd]
      exact ⟨hnd, hpri⟩
  | some st =>
    dsimp only
    by_cases h1 : d ≠ 0 ∧ st.direction ≠ d
    · rw [if_pos h1]
      have hkmem : k ∈ keysOf store := mem_keys_of_get_some hget
      simp only
      constructor
      · rw [mapSet_keys_of_mem hkmem]
        exact hnd
      · rw [mapSet_eq_map hnd hkmem]
        rw [List.length_map]
        have hsame : prioritiesOf (store.map
            (fun e => if e.1 = k then (k, { st with direction := d }) else e))
            = prioritiesOf store := by
          unfold prioritiesOf
          rw [List.map_map]
          refine List.map_congr_left (fun e he => ?_)
          by_cases hek : e.1 = k
          · have h2 : e.2 = st := entry_eq_of_get_some hnd hget e he hek
            simp [Function.comp, hek, h2]
          · simp [Function.comp, hek]
        rw [hsame]
        exact hpri
    · rw [if_neg h1]
      by_cases hd0 : d = 0
      · rw [if_pos hd0]
        have hdelnd : (keysOf (mapDelete k store)).Nodup := by
          have hsub : (keysOf (mapDelete k store)).Sublist (keysOf store) := by
            unfold keysOf
            exact (mapDelete_sublist k store).map (fun e : Nat × SortState => e.1)
          exact hnd.sublist hsub
        simp only
        constructor
        · rw [renumber_keysOf]
          exact hdelnd
        · rw [renumber_length]
          exact renumber_priorities hdelnd
      · rw [if_neg hd0]
        exact ⟨hnd, hpri⟩

theorem setColumnSort_store {T : Type} (cols : Nat → ColumnDefinition T)
    (s : TableState T) (k : Nat) (d : Int) :
    (setColumnSort cols s k d).store = (setColumnSortCore s.store k d).1 := rfl

theorem clearColumnSort_store {T : Type} (cols : Nat → ColumnDefinition T)
    (s : TableState T) (k : Nat) :
    (clearColumnSort cols s k).store = (setColumnSortCore s.store k 0).1 := rfl

theorem toggleColumnSort_store {T : Type} (cols : Nat → ColumnDefinition T)
    (s : TableState T) (k : Nat) :
    (toggleColumnSort cols s k).store
      = (setColumnSortCore (if s.multiSort then s.store else [])
          k (((mapGet k s.store).map (fun st => st.direction)).getD (-1) * -1)).1 := by
  unfold toggleColumnSort clearTableSort setColumnSort
  cases s.multiSort <;> rfl

theorem reachable_storeInv {T : Type} {cols : Nat → ColumnDefinition T}
    {s : TableState T} (h : Reachable cols s) : StoreInv s.store := by
  induction h with
  | init data multiSort => exact storeInv_nil
  | @toggle s k _ ih =>
    rw [toggleColumnSort_store]
    refine setColumnSortCore_inv ?_ _ _
    cases hms : s.multiSort with
    | true => simpa [hms] using ih
    | false => simp [hms, storeInv_nil]
  | @clearCol s k _ ih =>
    rw [clearColumnSort_store]
    exact setColumnSortCore_inv ih _ _
  | @set s k d _ ih =>
    rw [setColumnSort_store]
    exact setColumnSortCore_inv ih _ _
  | clearAll _ => exact storeInv_nil

theorem setColumnSortCore_direction {store : Store} {k : Nat} {d : Int} (hd : d ≠ 0) :
    (mapGet k (setColumnSortCore store k d).1).map (fun st => st.direction) = some d := by
  unfold setColumnSortCore
  cases hget : mapGet k store with
  | none =>
    dsimp only
    rw [if_pos hd]
    dsimp only
    rw [mapGet_mapSet_self]
    rfl
  | some st =>
    dsimp only
    by_cases h1 : d ≠ 0 ∧ st.direction ≠ d
    · rw [if_pos h1]
      dsimp only
      rw [mapGet_mapSet_self]
      rfl
    · rw [if_neg h1, if_neg hd]
      dsimp only
      rw [hget]
      have hdir : st.direction = d := by
        by_contra hc
        exact h1 ⟨hd, hc⟩
      simp [hdir]

theorem wf_next_direction_ne_zero {o : Option Int}
    (hwf : o = none ∨ o = some 1 ∨ o = some (-1)) :
    (o.getD (-1)) * -1 ≠ 0 := by
  rcases hwf with h | h | h <;> rw [h] <;> decide

theorem toggle_dirOf {T : Type} (cols : Nat → ColumnDefinition T) (s : TableState T)
    (k : Nat) (hwf : dirOf s k = none ∨ dirOf s k = some 1 ∨ dirOf s k = some (-1)) :
    dirOf (toggleColumnSort cols s k) k = some (((dirOf s k).getD (-1)) * -1) := by
  have hd : (((mapGet k s.store).map (fun st => st.direction)).getD (-1)) * -1 ≠ 0 :=
    wf_next_direction_ne_zero hwf
  show (mapGet k (toggleColumnSort cols s k).store).map (fun st => st.direction) = _
  rw [toggleColumnSort_store]
  exact setColumnSortCore_direction hd

/-- C2: for every sequence of `toggleColumnSort`, `clearColumnSort`,
`setColumnSort`, and `clearTableSort` calls starting from an empty store,
the active `SortState` priorities always form the contiguous range `1..N`
(`N` = number of active entries), with no two entries sharing a priority. -/
theorem claim_C2_priorities_contiguous {T : Type} {cols : Nat → ColumnDefinition T}
    {s : TableState T} (h : Reachable cols s) :
    (prioritiesOf s.store).Perm (List.range' 1 s.store.length) :=
  (reachable_storeInv h).2

theorem claim_C2_witness :
    (prioritiesOf (toggleColumnSort colsId (toggleColumnSort colsId tableM 5) 7).store).Perm
      (List.range' 1 (toggleColumnSort colsId (toggleColumnSort colsId tableM 5) 7).store.length) :=
  claim_C2_priorities_contiguous
    (Reachable.toggle 7 (Reachable.toggle 5 (Reachable.init tableM.data tableM.multiSort)))

/-- C4: on a column with no existing entry, toggling yields direction 1,
then -1, then 1 again; in general the next direction is
`(currentDirection ?? -1) * -1`, in both single- and multi-sort mode. -/
theorem claim_C4_toggle_direction_cycle {T : Type} (cols : Nat → ColumnDefinition T)
    (s : TableState T) (k : Nat)
    (hwf : dirOf s k = none ∨ dirOf s k = some 1 ∨ dirOf s k = some (-1)) :
    dirOf (toggleColumnSort cols s k) k = some (((dirOf s k).getD (-1)) * -1)
    ∧ (dirOf s k = none →
        dirOf (toggleColumnSort cols s k) k = some 1
        ∧ dirOf (toggleColumnSort cols (toggleColumnSort cols s k) k) k = some (-1)
        ∧ dirOf (toggleColumnSort cols (toggleColumnSort cols
            (toggleColumnSort cols s k) k) k) k = some 1) := by
  refine ⟨toggle_dirOf cols s k hwf, fun hnone => ?_⟩
  have h1 : dirOf (toggleColumnSort cols s k) k = some 1 := by
    rw [toggle_dirOf cols s k hwf, hnone]
    decide
  have h2 : dirOf (toggleColumnSort cols (toggleColumnSort cols s k) k) k = some (-1) := by
    rw [toggle_dirOf cols _ k (Or.inr (Or.inl h1)), h1]
    decide
  have h3 : dirOf (toggleColumnSort cols (toggleColumnSort cols
      (toggleColumnSort cols s k) k) k) k = some 1 := by
    rw [toggle_dirOf cols _ k (Or.inr (Or.inr h2)), h2]
    decide
  exact ⟨h1, h2, h3⟩

theorem claim_C4_witness :
    (dirOf tableA 0 = none ∨ dirOf tableA 0 = some 1 ∨ dirOf tableA 0 = some (-1))
    ∧ dirOf (toggleColumnSort colsId tableA 0) 0 = some (((dirOf tableA 0).getD (-1)) * -1)
    ∧ dirOf (toggleColumnSort colsId (toggleColumnSort colsId tableA 0) 0) 0 = some (-1) := by
  have h := claim_C4_toggle_direction_cycle colsId tableA 0 (by decide)
  exact ⟨by decide, h.1, (h.2 (by decide)).2.1⟩

/-- C5: with multi-sort disabled, toggling column `k` from any prior store
state leaves exactly one entry, keyed by `k`, at priority 1, whose
direction is computed from `k`'s state as read before the implicit clear. -/
theorem claim_C5_single_sort_single_entry {T : Type} (cols : Nat → ColumnDefinition T)
    (s : TableState T) (k : Nat) (hms : s.multiSort = false)
    (hwf : dirOf s k = none ∨ dirOf s k = some 1 ∨ dirOf s k = some (-1)) :
    (toggleColumnSort cols s k).store
      = [(k, { direction := ((dirOf s k).getD (-1)) * -1, priority := 1 })] := by
  have hd : (((mapGet k s.store).map (fun st => st.direction)).getD (-1)) * -1 ≠ 0 :=
    wf_next_direction_ne_zero hwf
  rw [toggleColumnSort_store, hms]
  simp only [Bool.false_eq_true, if_false]
  unfold setColumnSortCore
  dsimp only [mapGet]
  rw [if_pos hd]
  rfl

theorem claim_C5_witness :
    tableA.multiSort = false
    ∧ (dirOf tableA 3 = none ∨ dirOf tableA 3 = some 1 ∨ dirOf tableA 3 = some (-1))
    ∧ (toggleColumnSort colsId tableA 3).store
        = [(3, { direction := ((dirOf tableA 3).getD (-1)) * -1, priority := 1 })] :=
  ⟨by decide, by decide, claim_C5_single_sort_single_entry colsId tableA 3 (by decide) (by decide)⟩

/-- C9: invoking `toggleColumnSort` directly on a column whose `sortable`
flag is `false` or absent still adds a sort-state entry for that column —
the store itself does not gate on `sortable`, and no error is raised (the
operation is total). -/
theorem claim_C9_store_ignores_sortable {T : Type} (cols : Nat → ColumnDefinition T)
    (s : TableState T) (k : Nat)
    ( _hsortable : (cols k).sortable = Sortable.undef ∨ (cols k).sortable = Sortable.bool false)
    (hwf : dirOf s k = none ∨ dirOf s k = some 1 ∨ dirOf s k = some (-1)) :
    (mapGet k (toggleColumnSort cols s k).store).isSome = true := by
  have h := toggle_dirOf cols s k hwf
  unfold dirOf at h
  cases hmg : mapGet k (toggleColumnSort cols s k).store with
  | none => rw [hmg] at h; cases h
  | some st => rfl

theorem claim_C9_witness :
    ((colsId 0).sortable = Sortable.undef ∨ (colsId 0).sortable = Sortable.bool false)
    ∧ (dirOf tableA 0 = none ∨ dirOf tableA 0 = some 1 ∨ dirOf tableA 0 = some (-1))
    ∧ (mapGet 0 (toggleColumnSort colsId tableA 0).store).isSome = true :=
  ⟨Or.inl rfl, by decide,
    claim_C9_store_ignores_sortable colsId tableA 0 (Or.inl rfl) (by decide)⟩

theorem columnResult_of_not_custom {T : Type} (cols : Nat → ColumnDefinition T)
    (k : Nat) (h : (cols k).sortable.isCustom = false) (rowA rowB : T) :
    columnResult cols k rowA rowB
      = baseComparator (fun row => (cols k).render row) defaultMatcher rowA rowB := by
  unfold columnResult
  cases hs : (cols k).sortable with
  | undef => rfl
  | bool b => rfl
  | custom comparator =>
    rw [hs] at h
    simp [Sortable.isCustom] at h

/-- C7: `baseComparator(selector, matcher)` returns 0 when both selected
values are absent; returns 0 without invoking `matcher` when the two
selected values are identical (for every matcher); returns -1 when only
operand A's selected value is defined and 1 when only operand B's is
defined (the defined one sorts first); and otherwise delegates to
`matcher` on the two defined values. -/
theorem claim_C7_baseComparator_contract {T : Type} (selector : T → JSValue)
    (matcher : JSValue → JSValue → Int) (a b : T) :
    (isDefined (selector a) = false → isDefined (selector b) = false →
      baseComparator selector matcher a b = 0)
    ∧ (selector a = selector b → baseComparator selector matcher a b = 0)
    ∧ (isDefined (selector a) = true → isDefined (selector b) = false →
      baseComparator selector matcher a b = -1)
    ∧ (isDefined (selector a) = false → isDefined (selector b) = true →
      baseComparator selector matcher a b = 1)
    ∧ (isDefined (selector a) = true → isDefined (selector b) = true →
      selector a ≠ selector b →
      baseComparator selector matcher a b = matcher (selector a) (selector b)) := by
  refine ⟨?_, ?_, ?_, ?_, ?_⟩
  · intro ha hb
    simp [baseComparator, ha, hb]
  · intro hab
    simp [baseComparator, hab]
  · intro ha hb
    have hne : selector a ≠ selector b := by
      intro h
      rw [h, hb] at ha
      cases ha
    simp [baseComparator, hne, ha, hb]
  · intro ha hb
    have hne : selector a ≠ selector b := by
      intro h
      rw [h, hb] at ha
      cases ha
    simp [baseComparator, hne, ha, hb]
  · intro ha hb hne
    simp [baseComparator, hne, ha, hb]

theorem claim_C7_witness :
    (isDefined ((fun v : JSValue => v) (JSValue.num 5)) = true
      ∧ isDefined ((fun v : JSValue => v) JSValue.null) = false
      ∧ baseComparator (fun v : JSValue => v) defaultMatcher (JSValue.num 5) JSValue.null = -1)
    ∧ baseComparator (fun v : JSValue => v) defaultMatcher JSValue.undef JSValue.null = 0 := by
  have h := claim_C7_baseComparator_contract (fun v : JSValue => v) defaultMatcher
    (JSValue.num 5) JSValue.null
  have h0 := claim_C7_baseComparator_contract (fun v : JSValue => v) defaultMatcher
    JSValue.undef JSValue.null
  exact ⟨⟨by decide, by decide, h.2.2.1 (by decide) (by decide)⟩,
    h0.1 (by decide) (by decide)⟩

/-- C1 counterexample: the claim says a row with an absent sort-key value is
ordered before a row with a defined value under ascending sort, and that
direction -1 does not flip their relative order. On the code,
`baseComparator` returns 1 for (absent, defined) — the absent value sorts
after the defined one under ascending order — and the row comparator
multiplies this by `direction`, so direction -1 flips it to -1. -/
theorem claim_C1_counterexample :
    baseComparator (fun v : JSValue => v) defaultMatcher JSValue.null (JSValue.num 5) = 1
    ∧ baseComparator (fun v : JSValue => v) defaultMatcher (JSValue.num 5) JSValue.null = -1
    ∧ rowComparator colsId [(0, { direction := 1, priority := 1 })]
        JSValue.null (JSValue.num 5) = 1
    ∧ rowComparator colsId [(0, { direction := -1, priority := 1 })]
        JSValue.null (JSValue.num 5) = -1 := by
  decide

/-- C1 amended: for a pair of operands where exactly one selected value is
absent, the DEFINED value sorts first under `baseComparator` (-1 when A is
the defined one, 1 when B is); the derived value-comparators of the row
ordering engine behave the same way, and the per-column result — absence
result included — is multiplied by `direction`, so direction -1 DOES flip
the relative order of an absent-valued row and a defined-valued row. -/
theorem claim_C1_amended {T : Type} (selector : T → JSValue)
    (matcher : JSValue → JSValue → Int) (a b : T)
    (hA : isDefined (selector a) = true) (hB : isDefined (selector b) = false) :
    baseComparator selector matcher a b = -1
    ∧ baseComparator selector matcher b a = 1
    ∧ (∀ (cols : Nat → ColumnDefinition T) (k : Nat) (st : SortState),
        (cols k).sortable.isCustom = false →
        (cols k).render = selector →
        rowComparator cols [(k, st)] a b = -1 * st.direction
        ∧ rowComparator cols [(k, st)] b a = 1 * st.direction) := by
  have hne : selector a ≠ selector b := by
    intro h
    rw [h, hB] at hA
    cases hA
  have hbase1 : ∀ m : JSValue → JSValue → Int, baseComparator selector m a b = -1 := by
    intro m
    simp [baseComparator, hne, hA, hB]
  have hbase2 : ∀ m : JSValue → JSValue → Int, baseComparator selector m b a = 1 := by
    intro m
    have hne' : selector b ≠ selector a := fun h => hne h.symm
    simp [baseComparator, hne', hA, hB]
  refine ⟨hbase1 matcher, hbase2 matcher, ?_⟩
  intro cols k st hcust hrender
  have hcol1 : columnResult cols k a b = -1 := by
    rw [columnResult_of_not_custom cols k hcust, hrender]
    exact hbase1 defaultMatcher
  have hcol2 : columnResult cols k b a = 1 := by
    rw [columnResult_of_not_custom cols k hcust, hrender]
    exact hbase2 defaultMatcher
  constructor
  · simp [rowComparator, hcol1]
  · simp [rowComparator, hcol2]

theorem claim_C1_witness :
    (isDefined ((fun v : JSValue => v) (JSValue.num 5)) = true
      ∧ isDefined ((fun v : JSValue => v) JSValue.null) = false)
    ∧ baseComparator (fun v : JSValue => v) defaultMatcher (JSValue.num 5) JSValue.null = -1
    ∧ rowComparator colsId [(0, { direction := -1, priority := 1 })]
        (JSValue.num 5) JSValue.null = -1 * (-1) := by
  have h := claim_C1_amended (fun v : JSValue => v) defaultMatcher
    (JSValue.num 5) JSValue.null (by decide) (by decide)
  refine ⟨⟨by decide, by decide⟩, h.1, ?_⟩
  exact (h.2.2 colsId 0 { direction := -1, priority := 1 } (by decide) rfl).1

theorem rowComparator_eq_ref {T : Type} (cols : Nat → ColumnDefinition T) :
    ∀ (chain : List (Nat × SortState)),
    (∀ e ∈ chain, e.2.direction = 1 ∨ e.2.direction = -1) →
    ∀ rowA rowB, rowComparator cols chain rowA rowB
      = refRowComparator cols (chain.map (fun e => (e.1, e.2.direction))) rowA rowB := by
  intro chain
  induction chain with
  | nil => intro _ rowA rowB; rfl
  | cons e rest ih =>
    intro h rowA rowB
    have hdir : e.2.direction = 1 ∨ e.2.direction = -1 := h e (List.mem_cons_self e rest)
    have hdir0 : e.2.direction ≠ 0 := by
      rcases hdir with h1 | h1 <;> rw [h1] <;> decide
    obtain ⟨k, st⟩ := e
    have hrow : rowComparator cols ((k, st) :: rest) rowA rowB
        = if columnResult cols k rowA rowB ≠ 0
          then columnResult cols k rowA rowB * st.direction
          else rowComparator cols rest rowA rowB := rfl
    have href : refRowComparator cols
        (((k, st) :: rest).map (fun e => (e.1, e.2.direction))) rowA rowB
        = if columnResult cols k rowA rowB * st.direction ≠ 0
          then columnResult cols k rowA rowB * st.direction
          else refRowComparator cols (rest.map (fun e => (e.1, e.2.direction))) rowA rowB := rfl
    by_cases hres : columnResult cols k rowA rowB = 0
    · rw [hrow, href, hres]
      have h0 : ¬((0 : Int) ≠ 0) := by norm_num
      rw [if_neg h0]
      have h0m : ¬((0 : Int) * st.direction ≠ 0) := by simp
      rw [if_neg h0m]
      exact ih (fun e' he' => h e' (List.mem_cons_of_mem _ he')) rowA rowB
    · have hprod : columnResult cols k rowA rowB * st.direction ≠ 0 :=
        mul_ne_zero hres hdir0
      rw [hrow, href, if_pos hres, if_pos hprod]

/-- C3: the composed row comparator applied by the ordering engine equals
the reference definition from the spec — consult the `(column, direction)`
entries in ascending priority order, compute the per-column result (custom
comparator or derived value comparator), multiply by `direction`, return
the first non-zero result, and 0 when every entry ties — and consequently
`sortData` sorts with the reference comparator. -/
theorem claim_C3_comparator_refinement {T : Type} (cols : Nat → ColumnDefinition T)
    (store : Store) (data : List T)
    (hdir : ∀ e ∈ store, e.2.direction = 1 ∨ e.2.direction = -1) :
    (∀ rowA rowB, rowComparator cols (insertionSort lePriority store) rowA rowB
        = refRowComparator cols (refChain store) rowA rowB)
    ∧ sortData cols store data
        = insertionSort (fun rowA rowB =>
            refRowComparator cols (refChain store) rowA rowB ≤ 0) data := by
  have hsorted : ∀ e ∈ insertionSort lePriority store,
      e.2.direction = 1 ∨ e.2.direction = -1 :=
    fun e he => hdir e ((mem_insertionSort lePriority).mp he)
  have hcomp := rowComparator_eq_ref cols (insertionSort lePriority store) hsorted
  refine ⟨fun rowA rowB => hcomp rowA rowB, ?_⟩
  unfold sortData
  have hfun : (fun rowA rowB : T =>
        decide (rowComparator cols (insertionSort lePriority store) rowA rowB ≤ 0))
      = (fun rowA rowB : T =>
        decide (refRowComparator cols (refChain store) rowA rowB ≤ 0)) := by
    funext rowA rowB
    rw [hcomp rowA rowB]
    rfl
  show insertionSort (fun rowA rowB : T =>
      decide (rowComparator cols (insertionSort lePriority store) rowA rowB ≤ 0)) data = _
  rw [hfun]

theorem claim_C3_witness :
    (∀ e ∈ storeB, e.2.direction = 1 ∨ e.2.direction = -1)
    ∧ rowComparator colsId (insertionSort lePriority storeB)
        (JSValue.num 1) (JSValue.num 2)
      = refRowComparator colsId (refChain storeB) (JSValue.num 1) (JSValue.num 2) := by
  have h := claim_C3_comparator_refinement colsId storeB [] (by decide)
  exact ⟨by decide, h.1 (JSValue.num 1) (JSValue.num 2)⟩

theorem sortData_perm {T : Type} (cols : Nat → ColumnDefinition T) (store : Store)
    (data : List T) : (sortData cols store data).Perm data :=
  insertionSort_perm _ data

theorem setColumnSort_data_perm {T : Type} (cols : Nat → ColumnDefinition T)
    (s : TableState T) (k : Nat) (d : Int) :
    ((setColumnSort cols s k d).data).Perm s.data := by
  show (if (setColumnSortCore s.store k d).2
      then sortData cols (setColumnSortCore s.store k d).1 s.data
      else s.data).Perm s.data
  cases (setColumnSortCore s.store k d).2 with
  | false => simp
  | true => simpa using sortData_perm cols (setColumnSortCore s.store k d).1 s.data

/-- C10: every sort operation leaves the row collection a permutation of
its previous contents — sorting rearranges rows in place but never adds,
drops, or duplicates a row, for `toggleColumnSort`, `clearColumnSort`,
`setColumnSort`, and `clearTableSort`. -/
theorem claim_C10_data_permutation {T : Type} (cols : Nat → ColumnDefinition T)
    (s : TableState T) (k : Nat) (d : Int) :
    ((toggleColumnSort cols s k).data).Perm s.data
    ∧ ((clearColumnSort cols s k).data).Perm s.data
    ∧ ((setColumnSort cols s k d).data).Perm s.data
    ∧ ((clearTableSort s).data).Perm s.data := by
  refine ⟨?_, setColumnSort_data_perm cols s k 0, setColumnSort_data_perm cols s k d,
    List.Perm.refl _⟩
  show ((setColumnSort cols (if s.multiSort then s else clearTableSort s) k
      (((mapGet k s.store).map (fun st => st.direction)).getD (-1) * -1)).data).Perm s.data
  have hperm := setColumnSort_data_perm cols (if s.multiSort then s else clearTableSort s) k
    (((mapGet k s.store).map (fun st => st.direction)).getD (-1) * -1)
  have hdata : (if s.multiSort then s else clearTableSort s).data = s.data := by
    cases s.multiSort <;> rfl
  rwa [hdata] at hperm

theorem setColumnSortCore_insert {store : Store} {k : Nat} {d : Int}
    (hget : mapGet k store = none) (hd : d ≠ 0) :
    (setColumnSortCore store k d).1
      = store ++ [(k, { direction := d, priority := nextPriority store })] := by
  simp only [setColumnSortCore, hget]
  rw [if_pos hd]
  exact mapSet_of_get_none _ hget

theorem setColumnSortCore_clear_dirty {store : Store} {k : Nat} {st : SortState}
    (hget : mapGet k store = some st) :
    ((setColumnSortCore store k 0).2 = true ↔ mapDelete k store ≠ []) := by
  simp only [setColumnSortCore, hget]
  rw [if_neg (by simp), if_pos trivial]
  dsimp only
  rw [decide_eq_true_eq, renumber_length]
  exact List.length_pos

theorem toggleColumnSort_multiSort {T : Type} (cols : Nat → ColumnDefinition T)
    (s : TableState T) (k : Nat) :
    (toggleColumnSort cols s k).multiSort = s.multiSort := by
  unfold toggleColumnSort setColumnSort clearTableSort
  cases hms : s.multiSort with
  | true => exact hms
  | false => rfl

/-- C6: in multi-sort mode, sorting column A then column B from an empty
store yields the precedence chain [A, B] (A at priority 1, B at priority 2);
a newly inserted entry receives priority `max(existing priorities) + 1`
(1 when the store is empty); clearing A's sort removes A's entry and
renumbers B's priority to 1; and the clear branch marks the store dirty
(re-sorts) exactly when entries remain. -/
theorem claim_C6_multi_sort_chain {T : Type} (cols : Nat → ColumnDefinition T)
    (data : List T) (A B : Nat) (hAB : A ≠ B) :
    ((toggleColumnSort cols { store := [], data := data, multiSort := true } A).store
        = [(A, { direction := 1, priority := 1 })])
    ∧ ((toggleColumnSort cols (toggleColumnSort cols
          { store := [], data := data, multiSort := true } A) B).store
        = [(A, { direction := 1, priority := 1 }), (B, { direction := 1, priority := 2 })])
    ∧ ((clearColumnSort cols (toggleColumnSort cols (toggleColumnSort cols
          { store := [], data := data, multiSort := true } A) B) A).store
        = [(B, { direction := 1, priority := 1 })])
    ∧ (∀ (store : Store) (k : Nat) (d : Int), mapGet k store = none → d ≠ 0 →
        (setColumnSortCore store k d).1
          = store ++ [(k, { direction := d, priority := nextPriority store })])
    ∧ (∀ store : Store, nextPriority store = maxPriority store + 1)
    ∧ nextPriority ([] : Store) = 1
    ∧ (∀ (store : Store) (k : Nat) (st : SortState), mapGet k store = some st →
        ((setColumnSortCore store k 0).2 = true ↔ mapDelete k store ≠ [])) := by
  have h1 : (toggleColumnSort cols { store := [], data := data, multiSort := true } A).store
      = [(A, { direction := 1, priority := 1 })] := by
    rw [toggleColumnSort_store]
    show (setColumnSortCore [] A 1).1 = _
    have hget0 : mapGet A ([] : Store) = none := rfl
    rw [setColumnSortCore_insert hget0 one_ne_zero]
    rfl
  have hms1 : (toggleColumnSort cols { store := [], data := data, multiSort := true } A).multiSort
      = true := by
    rw [toggleColumnSort_multiSort]
  have h2 : (toggleColumnSort cols (toggleColumnSort cols
        { store := [], data := data, multiSort := true } A) B).store
      = [(A, { direction := 1, priority := 1 }), (B, { direction := 1, priority := 2 })] := by
    rw [toggleColumnSort_store, hms1, if_pos rfl, h1]
    have hgetB : mapGet B [(A, ({ direction := 1, priority := 1 } : SortState))] = none := by
      simp [mapGet, hAB]
    rw [hgetB, setColumnSortCore_insert hgetB (by decide)]
    rfl
  have h3 : (clearColumnSort cols (toggleColumnSort cols (toggleColumnSort cols
        { store := [], data := data, multiSort := true } A) B) A).store
      = [(B, { direction := 1, priority := 1 })] := by
    rw [clearColumnSort_store, h2]
    have hgetA : mapGet A [(A, ({ direction := 1, priority := 1 } : SortState)),
        (B, { direction := 1, priority := 2 })]
        = some { direction := 1, priority := 1 } := by
      simp [mapGet]
    simp only [setColumnSortCore, hgetA]
    rw [if_neg (by simp), if_pos trivial]
    dsimp only
    have hdel : mapDelete A [(A, ({ direction := 1, priority := 1 } : SortState)),
        (B, { direction := 1, priority := 2 })]
        = [(B, { direction := 1, priority := 2 })] := by
      simp [mapDelete]
    rw [hdel]
    unfold renumber
    simp [insertionSort, insertOne, mapSet]
  exact ⟨h1, h2, h3, fun store k d hget hd => setColumnSortCore_insert hget hd,
    nextPriority_eq_maxPriority, rfl, fun store k st hget => setColumnSortCore_clear_dirty hget⟩

theorem claim_C6_witness :
    (5 : Nat) ≠ 7
    ∧ (toggleColumnSort colsId
        { store := [], data := ([] : List JSValue), multiSort := true } 5).store
        = [(5, { direction := 1, priority := 1 })]
    ∧ (toggleColumnSort colsId (toggleColumnSort colsId
        { store := [], data := ([] : List JSValue), multiSort := true } 5) 7).store
        = [(5, { direction := 1, priority := 1 }), (7, { direction := 1, priority := 2 })] := by
  have h := claim_C6_multi_sort_chain colsId ([] : List JSValue) 5 7 (by decide)
  exact ⟨by decide, h.1, h.2.1⟩

theorem pageCount_ceil (n p : Nat) (hp : 0 < p) :
    ⌈(n : ℚ) / (p : ℚ)⌉ = ((n + p - 1) / p : Nat) := by
  have hdm := Nat.div_add_mod (n + p - 1) p
  have hrlt : (n + p - 1) % p < p := Nat.mod_lt _ hp
  have h1 : n ≤ p * ((n + p - 1) / p) := by omega
  have h2 : p * ((n + p - 1) / p) < n + p := by omega
  have hp' : (0 : ℚ) < (p : ℚ) := by exact_mod_cast hp
  rw [Int.ceil_eq_iff]
  constructor
  · rw [lt_div_iff₀ hp', Int.cast_natCast]
    have h2' : ((((n + p - 1) / p : Nat) : ℚ)) * p < n + p := by
      rw [mul_comm]
      exact_mod_cast h2
    have hexp : (((((n + p - 1) / p : Nat) : ℚ)) - 1) * p
        = ((((n + p - 1) / p : Nat) : ℚ)) * p - p := by ring
    rw [hexp]
    linarith
  · rw [div_le_iff₀ hp', Int.cast_natCast]
    rw [mul_comm]
    exact_mod_cast h1

theorem jsSlice_natCast {α : Type} (l : List α) (a b : Nat) :
    jsSlice l (a : Int) (b : Int) = (l.drop a).take (b - a) := by
  unfold jsSlice
  dsimp only
  have ha : ¬((a : Int) < 0) := by simp
  have hb : ¬((b : Int) < 0) := by simp
  rw [if_neg ha, if_neg hb]
  have hmina : ((a : Int) ⊓ (l.length : Int)) = ((a ⊓ l.length : Nat) : Int) :=
    (Nat.cast_min a l.length).symm
  have hminb : ((b : Int) ⊓ (l.length : Int)) = ((b ⊓ l.length : Nat) : Int) :=
    (Nat.cast_min b l.length).symm
  rw [hmina, hminb, Int.toNat_natCast, Int.toNat_sub]
  rcases le_or_lt a l.length with hle | hlt
  · rw [Nat.min_eq_left hle]
    refine List.take_eq_take.mpr ?_
    rw [List.length_drop]
    omega
  · have hminaa : a ⊓ l.length = l.length := by omega
    have hminbb : b ⊓ l.length = l.length ∨ b ⊓ l.length = b := by omega
    rw [hminaa, List.drop_length, List.take_nil,
      List.drop_eq_nil_of_le (Nat.le_of_lt hlt), List.take_nil]

/-- C8 counterexample: the claim says an out-of-range `pageIndex` yields an
empty slice and a non-positive `pageSize` yields the full collection. On
the code, a negative `pageIndex` or `pageSize` flows into
`Array.prototype.slice` with JS negative-offset semantics: with 10 rows,
`pageSize = 3`, `pageIndex = -2` the result is rows 4..6 (not empty), and
with 3 rows, `pageSize = -2`, `pageIndex = 0` the result is `[row 0]`
(neither the full collection nor a `pageIndex*pageSize` slice). -/
theorem claim_C8_counterexample :
    getDisplayData (List.range 10) (3 : Int) (-2) = [4, 5, 6]
    ∧ getDisplayData (List.range 10) (3 : Int) (-2) ≠ []
    ∧ getDisplayData (List.range 3) (-2 : Int) 0 = [0]
    ∧ getDisplayData (List.range 3) (-2 : Int) 0 ≠ List.range 3 := by
  decide

/-- C8 amended: for every data collection and NONNEGATIVE integers
`pageSize` and `pageIndex`: `pageCount` equals `ceil(dataLength/pageSize)`
when `pageSize > 0` and 0 otherwise; `getDisplayData()` returns the slice
`data[pageIndex*pageSize ... pageIndex*pageSize + pageSize)` when
`pageSize > 0` and the full collection when `pageSize = 0`; and an
out-of-range (too large) `pageIndex` yields an empty slice rather than an
error. (Negative values instead follow JS `Array.prototype.slice`
negative-offset semantics.) -/
theorem claim_C8_amended {α : Type} (data : List α) (pageSize pageIndex : Nat) :
    pageCount data (pageSize : Int)
      = (if 0 < pageSize then (((data.length + pageSize - 1) / pageSize : Nat) : Int) else 0)
    ∧ getDisplayData data (pageSize : Int) (pageIndex : Int)
      = (if 0 < pageSize then (data.drop (pageIndex * pageSize)).take pageSize else data)
    ∧ (0 < pageSize → data.length ≤ pageIndex * pageSize →
        getDisplayData data (pageSize : Int) (pageIndex : Int) = []) := by
  have hdisp : getDisplayData data (pageSize : Int) (pageIndex : Int)
      = (if 0 < pageSize then (data.drop (pageIndex * pageSize)).take pageSize else data) := by
    by_cases hp : 0 < pageSize
    · rw [if_pos hp]
      unfold getDisplayData
      have hne : ((pageSize : Int)) ≠ 0 := by
        have : pageSize ≠ 0 := Nat.pos_iff_ne_zero.mp hp
        exact_mod_cast this
      rw [if_pos hne]
      have harg1 : ((pageIndex : Int) * (pageSize : Int))
          = ((pageIndex * pageSize : Nat) : Int) := by push_cast; ring
      have harg2 : ((pageIndex : Int) * (pageSize : Int) + (pageSize : Int))
          = ((pageIndex * pageSize + pageSize : Nat) : Int) := by push_cast; ring
      rw [harg2, harg1, jsSlice_natCast]
      congr 1
      omega
    · rw [if_neg hp]
      unfold getDisplayData
      have hzero : pageSize = 0 := by omega
      rw [if_neg (by simp [hzero])]
  refine ⟨?_, hdisp, ?_⟩
  · by_cases hp : 0 < pageSize
    · rw [if_pos hp]
      unfold pageCount
      rw [if_pos (by exact_mod_cast hp)]
      exact pageCount_ceil data.length pageSize hp
    · rw [if_neg hp]
      unfold pageCount
      have hzero : pageSize = 0 := by omega
      rw [if_neg (by simp [hzero])]
  · intro hp hlen
    rw [hdisp, if_pos hp, List.drop_eq_nil_of_le hlen, List.take_nil]

theorem claim_C8_amended_witness :
    ((0 : Nat) < 3 ∧ (List.range 10).length ≤ 4 * 3)
    ∧ getDisplayData (List.range 10) (((3 : Nat)) : Int) (((4 : Nat)) : Int) = [] :=
  ⟨⟨by decide, by decide⟩,
    (claim_C8_amended (List.range 10) 3 4).2.2 (by decide) (by decide)⟩
